import Mathlib

/-!
Verification development for the job-scheduling backend
(`src/backend.py` of the eslab-task2 repository).

The transport layer (`schedule_jobs` endpoint) is embedded shallowly:
schema validators and the algorithm functions of the missing
`algorithms` module are parameters, and the embedding additionally
records the exact sequence of algorithm invocations so that claims
about the call set ("no RMS call", "no algorithm runs after a 400")
are expressible.  The scheduling algorithms themselves are modelled
from the specification (their source is not part of this snapshot).
-/

set_option maxHeartbeats 1000000

instance {ε α : Type} [DecidableEq ε] [DecidableEq α] : DecidableEq (Except ε α) :=
  fun x y =>
    match x, y with
    | Except.ok a, Except.ok b => decidable_of_iff (a = b) (by simp)
    | Except.error a, Except.error b => decidable_of_iff (a = b) (by simp)
    | Except.ok _, Except.error _ => isFalse (by simp)
    | Except.error _, Except.ok _ => isFalse (by simp)

namespace Backend

/-- An HTTP error as raised by `raise HTTPException(code, msg)`. -/
structure HErr where
  code : Nat
  msg : String
deriving DecidableEq, Repr

/-- The request body after JSON parsing: a dict that may or may not
contain the `application` and `platform` keys; `dict.get` yields
`none` for a missing key. -/
structure RequestData (α β : Type) where
  application : Option α
  platform : Option β
deriving DecidableEq, Repr

/-- The interface of the (external) `algorithms` module as used by
`backend.py` lines 92-96: five scheduling functions.  An RMS function
is deliberately absent from the call interface of `schedule_jobs`;
`AlgCall.rms` exists in the trace alphabet so that "never invokes an
RMS computation" is a statement, not a typing accident. -/
structure AlgEnv (α β ρ : Type) where
  ldf_single_node : Option α → ρ
  edf_single_node : Option α → ρ
  edf_multinode_no_delay : Option α → Option β → ρ
  ldf_multinode_no_delay : Option α → Option β → ρ
  ll_multinode_no_delay : Option α → Option β → ρ

/-- One observed algorithm invocation, with the arguments passed. -/
inductive AlgCall (α β : Type) where
  | ldf_single : Option α → AlgCall α β
  | edf_single : Option α → AlgCall α β
  | edf_multi : Option α → Option β → AlgCall α β
  | ldf_multi : Option α → Option β → AlgCall α β
  | ll_multi : Option α → Option β → AlgCall α β
  | rms : AlgCall α β
deriving DecidableEq, Repr

/-- Shallow embedding of the `POST /schedule_jobs` handler
(`src/backend.py` lines 55-116).  Returns the HTTP outcome (response
association list in the code's insertion order, or the raised
`HTTPException`) together with the trace of algorithm invocations in
source order (lines 92-96).  Output validation iterates over the
response items and raises 500 if any schedule fails the output
schema, exactly as the `for key, value in response.items()` loop
does. -/
def schedule_jobs {α β ρ : Type} (validateInput : RequestData α β → Bool)
    (env : AlgEnv α β ρ) (validateOutput : ρ → Bool)
    (data : RequestData α β) :
    Except HErr (List (String × ρ)) × List (AlgCall α β) :=
  if validateInput data then
    let application_data := data.application
    let platform_data := data.platform
    let v_ldf_single_node := env.ldf_single_node application_data
    let v_edfsingle_node := env.edf_single_node application_data
    let v_edf_multinode := env.edf_multinode_no_delay application_data platform_data
    let v_ldf_multinode := env.ldf_multinode_no_delay application_data platform_data
    let v_ll_multinode := env.ll_multinode_no_delay application_data platform_data
    let trace : List (AlgCall α β) :=
      [AlgCall.ldf_single application_data,
       AlgCall.edf_single application_data,
       AlgCall.edf_multi application_data platform_data,
       AlgCall.ldf_multi application_data platform_data,
       AlgCall.ll_multi application_data platform_data]
    let response : List (String × ρ) :=
      [("edfsingle_node", v_edfsingle_node),
       ("ldf_single_node", v_ldf_single_node),
       ("edf_multinode_no_delay", v_edf_multinode),
       ("ldf_multinode_no_delay", v_ldf_multinode),
       ("ll_multinode_no_delay", v_ll_multinode)]
    if response.all (fun kv => validateOutput kv.2) then
      (Except.ok response, trace)
    else
      (Except.error ⟨500, "Invalid Output Schema"⟩, trace)
  else
    (Except.error ⟨400, "Invalid Input schema"⟩, [])

/-- Trivial environment over `Unit` payloads, used to instantiate the
parametric theorems at concrete inputs. -/
def envU : AlgEnv Unit Unit Unit where
  ldf_single_node := fun _ => ()
  edf_single_node := fun _ => ()
  edf_multinode_no_delay := fun _ _ => ()
  ldf_multinode_no_delay := fun _ _ => ()
  ll_multinode_no_delay := fun _ _ => ()

/-- A request carrying both keys, over `Unit` payloads. -/
def dU : RequestData Unit Unit := ⟨some (), some ()⟩

end Backend

namespace Alg

/-- Modelled from the spec: the Job Model of §3 — one schedulable unit
of work with id, arrival, execution time, deadline and predecessor
ids.  The `algorithms` module that defines the concrete job
representation is not part of this snapshot. -/
structure Job where
  id : Nat
  arrival : Nat
  execution_time : Nat
  deadline : Nat
  dependencies : List Nat
deriving DecidableEq, Repr

/-- Precedence edges `(predecessor, successor)` induced by the
dependency sets of the jobs (§3: `dependencies` is the set of
predecessor ids). -/
def edgeList (jobs : List Job) : List (Nat × Nat) :=
  jobs.flatMap (fun j => j.dependencies.map (fun p => (p, j.id)))

/-- Modelled from the spec: the failure taxonomy of §7 for the Job
Graph Validator (§4.1). -/
inductive ModelError where
  | CyclicDependency
  | UnknownReference
  | InvalidTiming
deriving DecidableEq, Repr

/-- A vertex `v` has no incoming edge from a vertex still in
`remaining`. -/
def noIncoming (remaining : List Nat) (edges : List (Nat × Nat)) (v : Nat) : Bool :=
  edges.all (fun e => !(e.2 == v && remaining.contains e.1))

/-- Kahn-style elimination: repeatedly delete every vertex whose
remaining in-degree is zero; stops when nothing is deletable.  The
leftover is nonempty exactly when the graph restricted to `remaining`
has a cycle. -/
def elim (edges : List (Nat × Nat)) : Nat → List Nat → List Nat
  | 0, remaining => remaining
  | fuel + 1, remaining =>
    if (remaining.filter (noIncoming remaining edges)).isEmpty then remaining
    else elim edges fuel (remaining.filter (fun v => !(noIncoming remaining edges v)))

/-- Cycle test on the precedence graph of a job set. -/
def hasCycleB (jobs : List Job) : Bool :=
  !(elim (edgeList jobs) (jobs.map Job.id).length (jobs.map Job.id)).isEmpty

/-- Modelled from the spec: the Job Graph Validator of §4.1 — returns
the job set unchanged or fails with `CyclicDependency` (a cycle
exists), `UnknownReference` (an edge points to a non-existent job
id), or `InvalidTiming` (non-positive execution time, deadline before
arrival).  The cycle check runs first, matching the order of the §7
taxonomy. -/
def validateModel (jobs : List Job) : Except ModelError (List Job) :=
  if hasCycleB jobs then Except.error ModelError.CyclicDependency
  else if !(jobs.all (fun j => j.dependencies.all
      (fun p => (jobs.map Job.id).contains p))) then
    Except.error ModelError.UnknownReference
  else if !(jobs.all (fun j =>
      0 < j.execution_time && j.arrival ≤ j.deadline)) then
    Except.error ModelError.InvalidTiming
  else Except.ok jobs

/-- A nonempty list of job ids forming a directed cycle along `edges`:
consecutive members are joined by an edge and the last member closes
back to the head. -/
def IsCycleList (edges : List (Nat × Nat)) : List Nat → Prop
  | [] => False
  | a :: rest =>
    List.Chain (fun x y => (x, y) ∈ edges) a rest ∧
      ((a :: rest).getLast (by simp), a) ∈ edges

/-- Successor ids of a vertex in the precedence graph. -/
def succIds (jobs : List Job) (v : Nat) : List Nat :=
  (edgeList jobs).filterMap (fun e => if e.1 == v then some e.2 else none)

/-- Among `a :: l`, the job with the latest deadline, ties broken by
lowest id (§4.2). -/
def pickLatest (a : Job) (l : List Job) : Job :=
  l.foldl (fun best j =>
    if j.deadline > best.deadline ||
        (j.deadline == best.deadline && j.id < best.id) then j else best) a

/-- Modelled from the spec: the LDF assignment loop of §4.2 on the
reverse graph.  `unassigned` holds the jobs without a priority yet;
each round picks, among jobs all of whose successors are assigned,
the one with the latest deadline and gives it the next-lowest
priority.  `acc` accumulates picks, so the final `acc` lists job ids
in execution order (first to run at the head). -/
def ldfGo (jobs : List Job) : Nat → List Job → List Nat → List Nat
  | 0, _, acc => acc
  | fuel + 1, unassigned, acc =>
    let unIds := unassigned.map Job.id
    let ready := unassigned.filter
      (fun j => (succIds jobs j.id).all (fun s => !(unIds.contains s)))
    match ready with
    | [] => acc
    | r :: rs =>
      let pick := pickLatest r rs
      ldfGo jobs fuel (unassigned.filter (fun j => !(j.id == pick.id)))
        (pick.id :: acc)

/-- Modelled from the spec: LDF static priority order (§4.2) — job
ids in execution order. -/
def ldfOrder (jobs : List Job) : List Nat :=
  ldfGo jobs jobs.length jobs []

/-- One recorded execution interval: job `job` ran on node `node`
over `[start, stop)`. -/
structure Iv where
  node : Nat
  job : Nat
  start : Nat
  stop : Nat
deriving DecidableEq, Repr

/-- Working state of the event-driven simulation (§2, §5): current
time, per-job remaining execution time, per-job finish time and first
start time, recorded intervals in chronological order, and the job
set running since the previous event (for non-preemptive
policies). -/
structure SimSt where
  time : Nat
  rem : Nat → Nat
  fin : Nat → Option Nat
  strt : Nat → Option Nat
  ivs : List Iv
  running : List Nat

/-- A scheduling policy: node count, preemptive flag, and the
priority key (lower key = more urgent), a function of current time,
remaining execution time and the job. -/
structure Policy where
  m : Nat
  preemptive : Bool
  key : Nat → Nat → Job → Int

/-- Initial simulation state at time 0. -/
def initSt (jobs : List Job) : SimSt where
  time := 0
  rem := fun x => ((jobs.find? (fun j => j.id == x)).map Job.execution_time).getD 0
  fin := fun _ => none
  strt := fun _ => none
  ivs := []
  running := []

/-- Jobs ready at the current instant: arrived, not finished, and all
predecessors complete (§4.3's readiness check, shared by all
policies). -/
def readyJobs (jobs : List Job) (st : SimSt) : List Job :=
  jobs.filter (fun j =>
    decide (j.arrival ≤ st.time) && decide (0 < st.rem j.id) &&
      j.dependencies.all (fun p => (st.fin p).isSome))

/-- Insert into a `le`-sorted list. -/
def insertLe {α : Type} (le : α → α → Bool) (a : α) : List α → List α
  | [] => [a]
  | b :: bs => if le a b then a :: b :: bs else b :: insertLe le a bs

/-- Insertion sort by a boolean relation. -/
def sortLe {α : Type} (le : α → α → Bool) : List α → List α
  | [] => []
  | a :: as => insertLe le a (sortLe le as)

/-- Priority comparison under a policy at the current state: smaller
key first, ties broken by lowest id. -/
def jobLe (pol : Policy) (st : SimSt) (a b : Job) : Bool :=
  let ka := pol.key st.time (st.rem a.id) a
  let kb := pol.key st.time (st.rem b.id) b
  decide (ka < kb) || (decide (ka = kb) && decide (a.id ≤ b.id))

/-- The ids scheduled for the next slice, from the priority-sorted
ready list.  Preemptive policies take the `m` most urgent ready jobs;
non-preemptive policies first keep the jobs already running, then
fill idle nodes in priority order (§4.4 list scheduling). -/
def chooseIds (pol : Policy) (st : SimSt) (sorted : List Job) : List Nat :=
  if pol.preemptive then (sorted.map Job.id).take pol.m
  else
    let keep := sorted.filter (fun j => st.running.contains j.id)
    let fresh := sorted.filter (fun j => !(st.running.contains j.id))
    ((keep ++ fresh).map Job.id).take pol.m

/-- Minimum of a list of naturals, `none` on the empty list. -/
def minList : List Nat → Option Nat
  | [] => none
  | a :: as =>
    match minList as with
    | none => some a
    | some b => some (min a b)

/-- Earliest strictly future arrival among the jobs. -/
def nextArrival (jobs : List Job) (t : Nat) : Option Nat :=
  minList (jobs.filterMap (fun j => if t < j.arrival then some j.arrival else none))

/-- The ids selected to run next under a policy: the ready jobs,
priority-sorted, fed through the node assignment rule. -/
def chosenOf (pol : Policy) (jobs : List Job) (st : SimSt) : List Nat :=
  chooseIds pol st (sortLe (jobLe pol st) (readyJobs jobs st))

/-- Length of the next slice: run until the earliest completion among
the selected jobs or the next arrival, whichever comes first. -/
def deltaOf (jobs : List Job) (st : SimSt) (chosen : List Nat) : Nat :=
  match nextArrival jobs st.time with
  | none => (minList (chosen.map st.rem)).getD 1
  | some t2 => min ((minList (chosen.map st.rem)).getD 1) (t2 - st.time)

/-- Successor state after running the selected jobs for one slice:
one interval is recorded per occupied node (node `i` runs the `i`-th
selected job), remaining times decrease, jobs that reach zero
remaining time finish at the slice end, and first start times are
recorded. -/
def runState (jobs : List Job) (st : SimSt) (chosen : List Nat) : SimSt :=
  { time := st.time + deltaOf jobs st chosen
  , rem := fun x => if x ∈ chosen then st.rem x - deltaOf jobs st chosen else st.rem x
  , fin := fun x =>
      if x ∈ chosen ∧ st.rem x - deltaOf jobs st chosen = 0
      then some (st.time + deltaOf jobs st chosen) else st.fin x
  , strt := fun x =>
      if x ∈ chosen ∧ st.strt x = none then some st.time else st.strt x
  , ivs := st.ivs ++ chosen.enum.map
      (fun p => Iv.mk p.1 p.2 st.time (st.time + deltaOf jobs st chosen))
  , running := chosen }

/-- One event step of the simulation (§4.3): run the selected jobs
until the next event — the earliest completion among them or the next
arrival — recording one interval per occupied node; when nothing can
run, skip to the next arrival, or halt if there is none. -/
def simStep (pol : Policy) (jobs : List Job) (st : SimSt) : Option SimSt :=
  if (chosenOf pol jobs st).isEmpty then
    match nextArrival jobs st.time with
    | none => none
    | some t2 => some { st with time := t2, running := [] }
  else some (runState jobs st (chosenOf pol jobs st))

/-- Run the simulation for at most `fuel` events. -/
def simRun (pol : Policy) (jobs : List Job) : Nat → SimSt → SimSt
  | 0, st => st
  | fuel + 1, st =>
    match simStep pol jobs st with
    | none => st
    | some st2 => simRun pol jobs fuel st2

/-- Event budget sufficient to finish any job set: every productive
step advances time by at least one unit, and all activity ends by
the sum of all arrivals and execution times. -/
def simFuel (jobs : List Job) : Nat :=
  jobs.foldl (fun acc j => acc + j.arrival + j.execution_time) 0 + jobs.length + 1

/-- The Result structure of §3: per node the ordered list of
`(job_id, start_time, finish_time)` intervals, plus each job's first
start time and finish time. -/
structure SchedResult where
  nodes : List (List (Nat × Nat × Nat))
  startOf : Nat → Option Nat
  finishOf : Nat → Option Nat

/-- Run a policy on a job set and package the Result. -/
def simulate (pol : Policy) (jobs : List Job) : SchedResult :=
  let st := simRun pol jobs (simFuel jobs) (initSt jobs)
  { nodes := (List.range pol.m).map (fun n =>
      (st.ivs.filter (fun iv => iv.node == n)).map
        (fun iv => (iv.job, iv.start, iv.stop)))
  , startOf := st.strt
  , finishOf := st.fin }

/-- EDF: dynamic priority = absolute deadline, preemptive (§4.3). -/
def edfPolicy (m : Nat) : Policy := ⟨m, true, fun _ _ j => (j.deadline : Int)⟩

/-- Least Laxity: priority = deadline − now − remaining, preemptive (§4.5). -/
def llPolicy (m : Nat) : Policy :=
  ⟨m, true, fun t r j => (j.deadline : Int) - (t : Int) - (r : Int)⟩

/-- LDF: static priority = position in the LDF order, non-preemptive
list scheduling (§4.2, §4.4). -/
def ldfPolicy (jobs : List Job) (m : Nat) : Policy :=
  ⟨m, false, fun _ _ j => ((ldfOrder jobs).indexOf j.id : Int)⟩

/-- Modelled from the spec: `algorithms.ldf_single_node`. -/
def ldf_single_node (jobs : List Job) : SchedResult := simulate (ldfPolicy jobs 1) jobs

/-- Modelled from the spec: `algorithms.edf_single_node`. -/
def edf_single_node (jobs : List Job) : SchedResult := simulate (edfPolicy 1) jobs

/-- Modelled from the spec: `algorithms.edf_multinode_no_delay`. -/
def edf_multinode_no_delay (jobs : List Job) (m : Nat) : SchedResult :=
  simulate (edfPolicy m) jobs

/-- Modelled from the spec: `algorithms.ldf_multinode_no_delay`. -/
def ldf_multinode_no_delay (jobs : List Job) (m : Nat) : SchedResult :=
  simulate (ldfPolicy jobs m) jobs

/-- Modelled from the spec: `algorithms.ll_multinode_no_delay`. -/
def ll_multinode_no_delay (jobs : List Job) (m : Nat) : SchedResult :=
  simulate (llPolicy m) jobs

/-- Modelled from the spec: the engine pipeline of §7 — model
validation runs once and aborts the whole computation before any
algorithm runs; otherwise all five schedules are produced. -/
def runAllAlgorithms (jobs : List Job) (m : Nat) :
    Except ModelError (List (String × SchedResult)) :=
  match validateModel jobs with
  | Except.error e => Except.error e
  | Except.ok js =>
    Except.ok
      [("ldf_single_node", ldf_single_node js),
       ("edf_single_node", edf_single_node js),
       ("edf_multinode_no_delay", edf_multinode_no_delay js m),
       ("ldf_multinode_no_delay", ldf_multinode_no_delay js m),
       ("ll_multinode_no_delay", ll_multinode_no_delay js m)]

/-- Precedence invariant of §3/§8: every scheduled job starts no
earlier than the finish time of each of its predecessors. -/
def PrecedenceOK (jobs : List Job) (r : SchedResult) : Prop :=
  ∀ j ∈ jobs, ∀ s, r.startOf j.id = some s →
    ∀ p ∈ j.dependencies, ∃ f, r.finishOf p = some f ∧ f ≤ s

/-- Per-node interval invariant of §3/§8: on every node the recorded
`(job, start, finish)` intervals have positive length and are
pairwise non-overlapping in increasing time order. -/
def NodesOrdered (r : SchedResult) : Prop :=
  ∀ l ∈ r.nodes, (∀ iv ∈ l, iv.2.1 < iv.2.2) ∧
    List.Pairwise (fun a b : Nat × Nat × Nat => a.2.2 ≤ b.2.1) l

/-- Inductive invariant of the simulation state: finish times never
exceed the clock, started jobs had all predecessors finished by
their start, finished jobs have no work left, recorded intervals are
nonempty and closed by the clock, and intervals on a common node are
disjoint in recording order. -/
def Inv (jobs : List Job) (st : SimSt) : Prop :=
  (∀ x f, st.fin x = some f → f ≤ st.time) ∧
  (∀ j ∈ jobs, ∀ s, st.strt j.id = some s →
    ∀ p ∈ j.dependencies, ∃ f, st.fin p = some f ∧ f ≤ s) ∧
  (∀ x, 0 < st.rem x → st.fin x = none) ∧
  (∀ iv ∈ st.ivs, iv.start < iv.stop ∧ iv.stop ≤ st.time) ∧
  List.Pairwise (fun a b : Iv => a.node = b.node → a.stop ≤ b.start) st.ivs

end Alg

/-- Instantiation of the algorithm interface with the spec-modelled
algorithms: the application payload is the job list, the platform
payload is the node count, and a missing (`None`) payload is treated
as the empty job set / one node. -/
def envImpl : Backend.AlgEnv (List Alg.Job) Nat Alg.SchedResult where
  ldf_single_node := fun a => Alg.ldf_single_node (a.getD [])
  edf_single_node := fun a => Alg.edf_single_node (a.getD [])
  edf_multinode_no_delay := fun a p => Alg.edf_multinode_no_delay (a.getD []) (p.getD 1)
  ldf_multinode_no_delay := fun a p => Alg.ldf_multinode_no_delay (a.getD []) (p.getD 1)
  ll_multinode_no_delay := fun a p => Alg.ll_multinode_no_delay (a.getD []) (p.getD 1)

example : Alg.hasCycleB
    [⟨0, 0, 1, 3, [1]⟩, ⟨1, 0, 1, 3, [0]⟩] = true := by decide

example : Alg.hasCycleB
    [⟨0, 0, 1, 3, []⟩, ⟨1, 0, 1, 3, [0]⟩] = false := by decide

example : Alg.validateModel [⟨0, 0, 1, 3, [1]⟩, ⟨1, 0, 1, 3, [0]⟩] =
    Except.error Alg.ModelError.CyclicDependency := by decide

example :
    (Backend.schedule_jobs (fun _ => true) Backend.envU (fun _ => true) Backend.dU).1 =
      Except.ok [("edfsingle_node", ()), ("ldf_single_node", ()),
        ("edf_multinode_no_delay", ()), ("ldf_multinode_no_delay", ()),
        ("ll_multinode_no_delay", ())] := rfl

/-- C1 (counterexample): an accepted input on which `schedule_jobs`
succeeds, yet the response mapping has no `edf_single_node` key — the
code binds the EDF single-node result to the key `edfsingle_node`
(backend.py line 99), so the claimed key set is wrong. -/
theorem c1_key_counterexample :
    (Backend.schedule_jobs (fun _ => true) Backend.envU (fun _ => true) Backend.dU).1 =
      Except.ok [("edfsingle_node", ()), ("ldf_single_node", ()),
        ("edf_multinode_no_delay", ()), ("ldf_multinode_no_delay", ()),
        ("ll_multinode_no_delay", ())] ∧
    "edf_single_node" ∉
      (["edfsingle_node", "ldf_single_node", "edf_multinode_no_delay",
        "ldf_multinode_no_delay", "ll_multinode_no_delay"] : List String) := by
  exact ⟨rfl, by decide⟩

/-- Helper: a successful response is exactly the association list
built at backend.py lines 98-104. -/
theorem response_of_ok {α β ρ : Type} (vi : Backend.RequestData α β → Bool)
    (env : Backend.AlgEnv α β ρ) (vo : ρ → Bool) (d : Backend.RequestData α β)
    (r : List (String × ρ))
    (h : (Backend.schedule_jobs vi env vo d).1 = Except.ok r) :
    r = [("edfsingle_node", env.edf_single_node d.application),
         ("ldf_single_node", env.ldf_single_node d.application),
         ("edf_multinode_no_delay", env.edf_multinode_no_delay d.application d.platform),
         ("ldf_multinode_no_delay", env.ldf_multinode_no_delay d.application d.platform),
         ("ll_multinode_no_delay", env.ll_multinode_no_delay d.application d.platform)] := by
  unfold Backend.schedule_jobs at h
  by_cases hv : vi d = true
  · simp only [hv, if_true] at h
    split at h
    · exact (Except.ok.inj h).symm
    · exact absurd h (by simp)
  · simp only [eq_false_of_ne_true hv, if_false] at h
    exact absurd h (by simp)

/-- C1 (amended): for every accepted input, the response mapping has
exactly the keys `edfsingle_node`, `ldf_single_node`,
`edf_multinode_no_delay`, `ldf_multinode_no_delay`,
`ll_multinode_no_delay`, each bound to the result of the
correspondingly named algorithm function. -/
theorem c1_response_exact {α β ρ : Type} (vi : Backend.RequestData α β → Bool)
    (env : Backend.AlgEnv α β ρ) (vo : ρ → Bool) (d : Backend.RequestData α β)
    (r : List (String × ρ))
    (h : (Backend.schedule_jobs vi env vo d).1 = Except.ok r) :
    r = [("edfsingle_node", env.edf_single_node d.application),
         ("ldf_single_node", env.ldf_single_node d.application),
         ("edf_multinode_no_delay", env.edf_multinode_no_delay d.application d.platform),
         ("ldf_multinode_no_delay", env.ldf_multinode_no_delay d.application d.platform),
         ("ll_multinode_no_delay", env.ll_multinode_no_delay d.application d.platform)] :=
  response_of_ok vi env vo d r h

/-- C1 witness: the amended theorem applied at a concrete accepted
input. -/
theorem c1_response_exact_witness :
    (Backend.schedule_jobs (fun _ => true) Backend.envU (fun _ => true) Backend.dU).1 =
      Except.ok [("edfsingle_node", ()), ("ldf_single_node", ()),
        ("edf_multinode_no_delay", ()), ("ldf_multinode_no_delay", ()),
        ("ll_multinode_no_delay", ())] ∧
    ([("edfsingle_node", ()), ("ldf_single_node", ()),
      ("edf_multinode_no_delay", ()), ("ldf_multinode_no_delay", ()),
      ("ll_multinode_no_delay", ())] : List (String × Unit)) =
      [("edfsingle_node", Backend.envU.edf_single_node Backend.dU.application),
       ("ldf_single_node", Backend.envU.ldf_single_node Backend.dU.application),
       ("edf_multinode_no_delay",
         Backend.envU.edf_multinode_no_delay Backend.dU.application Backend.dU.platform),
       ("ldf_multinode_no_delay",
         Backend.envU.ldf_multinode_no_delay Backend.dU.application Backend.dU.platform),
       ("ll_multinode_no_delay",
         Backend.envU.ll_multinode_no_delay Backend.dU.application Backend.dU.platform)] :=
  ⟨rfl, c1_response_exact (fun _ => true) Backend.envU (fun _ => true) Backend.dU _ rfl⟩

/-- C2: for every input, `schedule_jobs` never performs an RMS call;
the trace is either empty (rejected input) or exactly the five
non-RMS algorithm invocations of backend.py lines 92-96, and every
key of a successful response names one of the five non-RMS
schedules. -/
theorem c2_no_rms_call {α β ρ : Type} (vi : Backend.RequestData α β → Bool)
    (env : Backend.AlgEnv α β ρ) (vo : ρ → Bool) (d : Backend.RequestData α β) :
    Backend.AlgCall.rms ∉ (Backend.schedule_jobs vi env vo d).2 ∧
    ((Backend.schedule_jobs vi env vo d).2 = [] ∨
      (Backend.schedule_jobs vi env vo d).2 =
        [Backend.AlgCall.ldf_single d.application,
         Backend.AlgCall.edf_single d.application,
         Backend.AlgCall.edf_multi d.application d.platform,
         Backend.AlgCall.ldf_multi d.application d.platform,
         Backend.AlgCall.ll_multi d.application d.platform]) ∧
    (∀ r, (Backend.schedule_jobs vi env vo d).1 = Except.ok r →
      r.map Prod.fst = ["edfsingle_node", "ldf_single_node", "edf_multinode_no_delay",
        "ldf_multinode_no_delay", "ll_multinode_no_delay"]) := by
  refine ⟨?_, ?_, ?_⟩
  · unfold Backend.schedule_jobs
    by_cases hv : vi d = true
    · simp only [hv, if_true]
      split <;> simp
    · simp only [eq_false_of_ne_true hv, if_false]
      simp
  · unfold Backend.schedule_jobs
    by_cases hv : vi d = true
    · simp only [hv, if_true]
      split <;> simp
    · simp only [eq_false_of_ne_true hv, if_false]
      simp
  · intro r hr
    have := response_of_ok vi env vo d r hr
    subst this
    rfl

/-- C2 witness: the call-set theorem applied at a concrete input. -/
theorem c2_no_rms_call_witness :
    ["edfsingle_node", "ldf_single_node", "edf_multinode_no_delay",
     "ldf_multinode_no_delay", "ll_multinode_no_delay"] =
      ["edfsingle_node", "ldf_single_node", "edf_multinode_no_delay",
       "ldf_multinode_no_delay", "ll_multinode_no_delay"] :=
  (c2_no_rms_call (fun _ => true) Backend.envU (fun _ => true) Backend.dU).2.2 _ rfl

/-- C3: when input validation fails, `schedule_jobs` raises exactly
the 400 error of backend.py line 87, no algorithm is invoked (empty
trace), and no schedule — not even a partial one — is returned. -/
theorem c3_invalid_input_aborts {α β ρ : Type} (vi : Backend.RequestData α β → Bool)
    (env : Backend.AlgEnv α β ρ) (vo : ρ → Bool) (d : Backend.RequestData α β)
    (h : vi d = false) :
    Backend.schedule_jobs vi env vo d =
      (Except.error ⟨400, "Invalid Input schema"⟩, []) := by
  unfold Backend.schedule_jobs
  simp [h]

/-- C3 witness: a rejected request produces the 400 error and an
empty call trace. -/
theorem c3_invalid_input_aborts_witness :
    Backend.schedule_jobs (fun _ => false) Backend.envU (fun _ => true) Backend.dU =
      (Except.error ⟨400, "Invalid Input schema"⟩, []) :=
  c3_invalid_input_aborts (fun _ => false) Backend.envU (fun _ => true) Backend.dU rfl

/-- C5: every value of a successful response is exactly the object
the corresponding algorithm function returned — the transport layer
applies no transformation (backend.py lines 92-116 hand the algorithm
results through unchanged). -/
theorem c5_results_untouched {α β ρ : Type} (vi : Backend.RequestData α β → Bool)
    (env : Backend.AlgEnv α β ρ) (vo : ρ → Bool) (d : Backend.RequestData α β)
    (r : List (String × ρ))
    (h : (Backend.schedule_jobs vi env vo d).1 = Except.ok r) :
    r.map Prod.snd =
      [env.edf_single_node d.application,
       env.ldf_single_node d.application,
       env.edf_multinode_no_delay d.application d.platform,
       env.ldf_multinode_no_delay d.application d.platform,
       env.ll_multinode_no_delay d.application d.platform] := by
  have := response_of_ok vi env vo d r h
  subst this
  rfl

/-- C5 witness: the pass-through theorem applied at a concrete
input. -/
theorem c5_results_untouched_witness :
    ([("edfsingle_node", ()), ("ldf_single_node", ()),
      ("edf_multinode_no_delay", ()), ("ldf_multinode_no_delay", ()),
      ("ll_multinode_no_delay", ())] : List (String × Unit)).map Prod.snd =
      [Backend.envU.edf_single_node Backend.dU.application,
       Backend.envU.ldf_single_node Backend.dU.application,
       Backend.envU.edf_multinode_no_delay Backend.dU.application Backend.dU.platform,
       Backend.envU.ldf_multinode_no_delay Backend.dU.application Backend.dU.platform,
       Backend.envU.ll_multinode_no_delay Backend.dU.application Backend.dU.platform] :=
  c5_results_untouched (fun _ => true) Backend.envU (fun _ => true) Backend.dU _ rfl

/-- C9: if the input is accepted but any one of the five computed
schedules fails output-schema validation, `schedule_jobs` raises the
500 error of backend.py line 113 and returns no response mapping at
all — not even the schedules that validated. -/
theorem c9_output_invalid_500 {α β ρ : Type} (vi : Backend.RequestData α β → Bool)
    (env : Backend.AlgEnv α β ρ) (vo : ρ → Bool) (d : Backend.RequestData α β)
    (hv : vi d = true)
    (hbad : (vo (env.edf_single_node d.application) &&
             vo (env.ldf_single_node d.application) &&
             vo (env.edf_multinode_no_delay d.application d.platform) &&
             vo (env.ldf_multinode_no_delay d.application d.platform) &&
             vo (env.ll_multinode_no_delay d.application d.platform)) = false) :
    (Backend.schedule_jobs vi env vo d).1 =
      Except.error ⟨500, "Invalid Output Schema"⟩ := by
  unfold Backend.schedule_jobs
  simp only [hv, if_true]
  have hall : (([("edfsingle_node", env.edf_single_node d.application),
      ("ldf_single_node", env.ldf_single_node d.application),
      ("edf_multinode_no_delay", env.edf_multinode_no_delay d.application d.platform),
      ("ldf_multinode_no_delay", env.ldf_multinode_no_delay d.application d.platform),
      ("ll_multinode_no_delay", env.ll_multinode_no_delay d.application d.platform)] :
        List (String × ρ)).all (fun kv => vo kv.2)) = false := by
    simp only [List.all_cons, List.all_nil, Bool.and_true] at *
    revert hbad
    cases vo (env.edf_single_node d.application) <;>
      cases vo (env.ldf_single_node d.application) <;>
      cases vo (env.edf_multinode_no_delay d.application d.platform) <;>
      cases vo (env.ldf_multinode_no_delay d.application d.platform) <;>
      cases vo (env.ll_multinode_no_delay d.application d.platform) <;> simp
  simp only [hall, if_false]
  simp

/-- C9 witness: a single failing schedule validation yields the 500
error. -/
theorem c9_output_invalid_500_witness :
    (Backend.schedule_jobs (fun _ => true) Backend.envU (fun _ => false) Backend.dU).1 =
      Except.error ⟨500, "Invalid Output Schema"⟩ :=
  c9_output_invalid_500 (fun _ => true) Backend.envU (fun _ => false) Backend.dU rfl rfl

/-- C10: an accepted request that lacks the `application` key (or the
`platform` key) is not rejected for the missing key: `dict.get`
yields `None` (backend.py lines 89-90), the computation proceeds, and
every algorithm function is invoked with `None` as the corresponding
argument. -/
theorem c10_missing_key_passes_none {α β ρ : Type} (vi : Backend.RequestData α β → Bool)
    (env : Backend.AlgEnv α β ρ) (vo : ρ → Bool) (a : Option α) (p : Option β) :
    (vi ⟨none, p⟩ = true →
      (Backend.schedule_jobs vi env vo ⟨none, p⟩).1 ≠
        Except.error ⟨400, "Invalid Input schema"⟩ ∧
      (Backend.schedule_jobs vi env vo ⟨none, p⟩).2 =
        [Backend.AlgCall.ldf_single none, Backend.AlgCall.edf_single none,
         Backend.AlgCall.edf_multi none p, Backend.AlgCall.ldf_multi none p,
         Backend.AlgCall.ll_multi none p]) ∧
    (vi ⟨a, none⟩ = true →
      (Backend.schedule_jobs vi env vo ⟨a, none⟩).1 ≠
        Except.error ⟨400, "Invalid Input schema"⟩ ∧
      (Backend.schedule_jobs vi env vo ⟨a, none⟩).2 =
        [Backend.AlgCall.ldf_single a, Backend.AlgCall.edf_single a,
         Backend.AlgCall.edf_multi a none, Backend.AlgCall.ldf_multi a none,
         Backend.AlgCall.ll_multi a none]) := by
  constructor
  · intro hv
    unfold Backend.schedule_jobs
    simp only [hv, if_true]
    constructor
    · split <;> simp
    · split <;> rfl
  · intro hv
    unfold Backend.schedule_jobs
    simp only [hv, if_true]
    constructor
    · split <;> simp
    · split <;> rfl

/-- C10 witness: a request with both keys missing that passes
input-schema validation leads to every algorithm being called with
`None` arguments. -/
theorem c10_missing_key_passes_none_witness :
    (Backend.schedule_jobs (fun _ => true) Backend.envU (fun _ => true)
        (⟨none, some ()⟩ : Backend.RequestData Unit Unit)).1 ≠
      Except.error ⟨400, "Invalid Input schema"⟩ ∧
    (Backend.schedule_jobs (fun _ => true) Backend.envU (fun _ => true)
        (⟨none, some ()⟩ : Backend.RequestData Unit Unit)).2 =
      [Backend.AlgCall.ldf_single none, Backend.AlgCall.edf_single none,
       Backend.AlgCall.edf_multi none (some ()), Backend.AlgCall.ldf_multi none (some ()),
       Backend.AlgCall.ll_multi none (some ())] :=
  (c10_missing_key_passes_none (fun _ => true) Backend.envU (fun _ => true)
    (some ()) (some ())).1 rfl

/-- C8: the LDF priority assignment is a pure function of the job set
and its edge set — two runs on equal inputs produce the identical
order (the tie-break of §4.2 is by lowest id, with no hidden
randomness) — and consequently `schedule_jobs`, instantiated with the
modelled algorithms, returns equal results (in particular equal
`ldf_single_node` schedules) on equal requests. -/
theorem c8_ldf_deterministic (jobs1 jobs2 : List Alg.Job) (h : jobs1 = jobs2)
    (vi : Backend.RequestData (List Alg.Job) Nat → Bool) (vo : Alg.SchedResult → Bool)
    (d1 d2 : Backend.RequestData (List Alg.Job) Nat) (hd : d1 = d2) :
    Alg.ldfOrder jobs1 = Alg.ldfOrder jobs2 ∧
    Backend.schedule_jobs vi envImpl vo d1 = Backend.schedule_jobs vi envImpl vo d2 := by
  subst h
  subst hd
  exact ⟨rfl, rfl⟩

/-- C8 witness: determinism instantiated at a concrete two-job set
and request. -/
theorem c8_ldf_deterministic_witness :
    Alg.ldfOrder [⟨0, 0, 2, 3, []⟩, ⟨1, 0, 2, 6, [0]⟩] =
      Alg.ldfOrder [⟨0, 0, 2, 3, []⟩, ⟨1, 0, 2, 6, [0]⟩] ∧
    Backend.schedule_jobs (fun _ => true) envImpl (fun _ => true)
        ⟨some [⟨0, 0, 2, 3, []⟩, ⟨1, 0, 2, 6, [0]⟩], some 1⟩ =
      Backend.schedule_jobs (fun _ => true) envImpl (fun _ => true)
        ⟨some [⟨0, 0, 2, 3, []⟩, ⟨1, 0, 2, 6, [0]⟩], some 1⟩ :=
  c8_ldf_deterministic _ _ rfl (fun _ => true) (fun _ => true) _ _ rfl

/-- C6: EDF single-node on the dependency-free two-job set
A = id 0 (arrival 0, execution time 2, deadline 5) and
B = id 1 (arrival 0, execution time 1, deadline 2): the schedule runs
B over `[0,1]` and then A over `[1,3]` — the earlier deadline runs
first. -/
theorem c6_edf_single_example :
    (Alg.edf_single_node [⟨0, 0, 2, 5, []⟩, ⟨1, 0, 1, 2, []⟩]).nodes =
      [[(1, 0, 1), (0, 1, 3)]] := by decide

/-- Every member of a relation chain other than the head has a
predecessor under the relation within the chain. -/
theorem chain_pred_mem {R : Nat → Nat → Prop} {l : List Nat} {v : Nat} :
    ∀ {a : Nat}, List.Chain R a l → v ∈ l → ∃ p ∈ a :: l, R p v := by
  induction l with
  | nil => intro a _ hv; cases hv
  | cons b bs ih =>
    intro a hch hv
    rcases List.chain_cons.mp hch with ⟨hab, hch2⟩
    rcases List.mem_cons.mp hv with rfl | hv2
    · exact ⟨a, List.mem_cons_self _ _, hab⟩
    · rcases ih hch2 hv2 with ⟨p, hp, hR⟩
      exact ⟨p, List.mem_cons_of_mem _ hp, hR⟩

/-- Kahn-style elimination never deletes a vertex of a set in which
every vertex has an incoming edge from within the set. -/
theorem elim_keeps (edges : List (Nat × Nat)) (S : List Nat)
    (hS : ∀ v ∈ S, ∃ p ∈ S, (p, v) ∈ edges) :
    ∀ (fuel : Nat) (remaining : List Nat), (∀ v ∈ S, v ∈ remaining) →
      ∀ v ∈ S, v ∈ Alg.elim edges fuel remaining := by
  intro fuel
  induction fuel with
  | zero => intro remaining hsub v hv; exact hsub v hv
  | succ n ih =>
    intro remaining hsub v hv
    unfold Alg.elim
    split
    · exact hsub v hv
    · refine ih _ ?_ v hv
      intro w hw
      rcases hS w hw with ⟨p, hpS, hpe⟩
      apply List.mem_filter.mpr
      refine ⟨hsub w hw, ?_⟩
      have hno : Alg.noIncoming remaining edges w = false := by
        apply Bool.eq_false_iff.mpr
        intro hall
        have hmem := List.all_eq_true.mp hall (p, w) hpe
        simp only [Bool.not_eq_true'] at hmem
        rw [Bool.and_eq_false_iff] at hmem
        rcases hmem with h1 | h2
        · simp at h1
        · simp at h2
          exact h2 (hsub p hpS)
      simp [hno]

/-- A concrete cycle among the job ids forces the cycle test to
report it. -/
theorem hasCycleB_of_cycle (jobs : List Alg.Job) (l : List Nat)
    (hcyc : Alg.IsCycleList (Alg.edgeList jobs) l)
    (hmem : ∀ v ∈ l, v ∈ jobs.map Alg.Job.id) :
    Alg.hasCycleB jobs = true := by
  cases l with
  | nil => exact absurd hcyc (by simp [Alg.IsCycleList])
  | cons a rest =>
    obtain ⟨hch, hclose⟩ := hcyc
    have hpred : ∀ v ∈ a :: rest, ∃ p ∈ a :: rest, (p, v) ∈ Alg.edgeList jobs := by
      intro v hv
      rcases List.mem_cons.mp hv with hva | hv2
      · rw [hva]
        exact ⟨(a :: rest).getLast (by simp), List.getLast_mem _, hclose⟩
      · exact chain_pred_mem hch hv2
    have hkeep := elim_keeps (Alg.edgeList jobs) (a :: rest) hpred
      (jobs.map Alg.Job.id).length (jobs.map Alg.Job.id) hmem
    have ha := hkeep a (List.mem_cons_self _ _)
    unfold Alg.hasCycleB
    cases helim : Alg.elim (Alg.edgeList jobs) (jobs.map Alg.Job.id).length
        (jobs.map Alg.Job.id) with
    | nil => rw [helim] at ha; cases ha
    | cons x xs => rfl

/-- C7: a job set whose dependency edges contain a cycle is rejected
by model validation with `CyclicDependency`, and the engine pipeline
returns that failure instead of any schedule — not even a partial
one. -/
theorem c7_cycle_rejected (jobs : List Alg.Job) (m : Nat) (l : List Nat)
    (hcyc : Alg.IsCycleList (Alg.edgeList jobs) l)
    (hmem : ∀ v ∈ l, v ∈ jobs.map Alg.Job.id) :
    Alg.validateModel jobs = Except.error Alg.ModelError.CyclicDependency ∧
    Alg.runAllAlgorithms jobs m = Except.error Alg.ModelError.CyclicDependency := by
  have hc := hasCycleB_of_cycle jobs l hcyc hmem
  have hval : Alg.validateModel jobs = Except.error Alg.ModelError.CyclicDependency := by
    unfold Alg.validateModel
    simp [hc]
  refine ⟨hval, ?_⟩
  unfold Alg.runAllAlgorithms
  rw [hval]

/-- C7 witness: the two-job cycle `0 → 1 → 0` is rejected with
`CyclicDependency` and yields no schedule. -/
theorem c7_cycle_rejected_witness :
    Alg.validateModel [⟨0, 0, 1, 3, [1]⟩, ⟨1, 0, 1, 3, [0]⟩] =
      Except.error Alg.ModelError.CyclicDependency ∧
    Alg.runAllAlgorithms [⟨0, 0, 1, 3, [1]⟩, ⟨1, 0, 1, 3, [0]⟩] 2 =
      Except.error Alg.ModelError.CyclicDependency :=
  c7_cycle_rejected _ 2 [0, 1]
    (by
      refine ⟨?_, ?_⟩
      · exact List.Chain.cons (by decide) List.Chain.nil
      · decide)
    (by decide)

/-- Insertion preserves list membership (backwards direction). -/
theorem mem_insertLe {α : Type} (le : α → α → Bool) (a x : α) :
    ∀ l : List α, x ∈ Alg.insertLe le a l → x = a ∨ x ∈ l := by
  intro l
  induction l with
  | nil =>
    intro h
    rcases List.mem_cons.mp h with h1 | h1
    · exact Or.inl h1
    · cases h1
  | cons b bs ih =>
    intro h
    unfold Alg.insertLe at h
    split at h
    · rcases List.mem_cons.mp h with h1 | h1
      · exact Or.inl h1
      · exact Or.inr h1
    · rcases List.mem_cons.mp h with h1 | h1
      · exact Or.inr (h1 ▸ List.mem_cons_self _ _)
      · rcases ih h1 with h2 | h2
        · exact Or.inl h2
        · exact Or.inr (List.mem_cons_of_mem _ h2)

/-- Sorting preserves list membership (backwards direction). -/
theorem mem_sortLe {α : Type} (le : α → α → Bool) (x : α) :
    ∀ l : List α, x ∈ Alg.sortLe le l → x ∈ l := by
  intro l
  induction l with
  | nil => intro h; cases h
  | cons a as ih =>
    intro h
    unfold Alg.sortLe at h
    rcases mem_insertLe le a x _ h with h1 | h1
    · exact h1 ▸ List.mem_cons_self _ _
    · exact List.mem_cons_of_mem _ (ih h1)

/-- Every selected id names a job of the sorted ready list. -/
theorem chooseIds_sub (pol : Alg.Policy) (st : Alg.SimSt) (sorted : List Alg.Job)
    (c : Nat) (h : c ∈ Alg.chooseIds pol st sorted) : ∃ j ∈ sorted, j.id = c := by
  unfold Alg.chooseIds at h
  split at h
  · have := List.take_subset _ _ h
    rcases List.mem_map.mp this with ⟨j, hj, hjc⟩
    exact ⟨j, hj, hjc⟩
  · have := List.take_subset _ _ h
    rcases List.mem_map.mp this with ⟨j, hj, hjc⟩
    rcases List.mem_append.mp hj with h2 | h2
    · exact ⟨j, List.mem_of_mem_filter h2, hjc⟩
    · exact ⟨j, List.mem_of_mem_filter h2, hjc⟩

/-- The minimum of a nonempty list is one of its members. -/
theorem minList_mem : ∀ {l : List Nat} {v : Nat}, Alg.minList l = some v → v ∈ l := by
  intro l
  induction l with
  | nil => intro v h; cases h
  | cons a as ih =>
    intro v h
    unfold Alg.minList at h
    cases hm : Alg.minList as with
    | none =>
      rw [hm] at h
      exact (Option.some.inj h) ▸ List.mem_cons_self _ _
    | some b =>
      rw [hm] at h
      have hv : v = min a b := (Option.some.inj h).symm
      rcases Nat.le_total a b with hab | hab
      · rw [hv, Nat.min_eq_left hab]
        exact List.mem_cons_self _ _
      · rw [hv, Nat.min_eq_right hab]
        exact List.mem_cons_of_mem _ (ih hm)

/-- The next arrival is strictly in the future. -/
theorem nextArrival_gt (jobs : List Alg.Job) (t t2 : Nat)
    (h : Alg.nextArrival jobs t = some t2) : t < t2 := by
  unfold Alg.nextArrival at h
  have hm := minList_mem h
  rcases List.mem_filterMap.mp hm with ⟨j, _, hj⟩
  split at hj
  · exact (Option.some.inj hj) ▸ (by assumption)
  · cases hj

/-- Indices produced by `enumFrom` start at the base offset. -/
theorem mem_enumFrom_le {α : Type} :
    ∀ (l : List α) (n : Nat) (x : Nat × α), x ∈ List.enumFrom n l → n ≤ x.1 := by
  intro l
  induction l with
  | nil => intro n x h; cases h
  | cons a as ih =>
    intro n x h
    rcases List.mem_cons.mp h with h1 | h1
    · rw [h1]
    · exact Nat.le_of_succ_le (ih (n + 1) x h1)

/-- Indices produced by `enumFrom` are strictly increasing. -/
theorem pairwise_enumFrom {α : Type} :
    ∀ (l : List α) (n : Nat),
      List.Pairwise (fun x y : Nat × α => x.1 < y.1) (List.enumFrom n l) := by
  intro l
  induction l with
  | nil => intro n; exact List.Pairwise.nil
  | cons a as ih =>
    intro n
    refine List.Pairwise.cons ?_ (ih (n + 1))
    intro x hx
    exact Nat.lt_of_succ_le (mem_enumFrom_le as (n + 1) x hx)

/-- Unpacking of the readiness filter: a ready job is a job that has
arrived, has work left, and has every predecessor finished. -/
theorem mem_readyJobs {jobs : List Alg.Job} {st : Alg.SimSt} {j : Alg.Job}
    (h : j ∈ Alg.readyJobs jobs st) :
    j ∈ jobs ∧ j.arrival ≤ st.time ∧ 0 < st.rem j.id ∧
      ∀ p ∈ j.dependencies, ∃ f, st.fin p = some f := by
  unfold Alg.readyJobs at h
  have h2 := List.mem_filter.mp h
  refine ⟨h2.1, ?_, ?_, ?_⟩
  · have := h2.2
    simp only [Bool.and_eq_true, decide_eq_true_eq] at this
    exact this.1.1
  · have := h2.2
    simp only [Bool.and_eq_true, decide_eq_true_eq] at this
    exact this.1.2
  · have := h2.2
    simp only [Bool.and_eq_true, decide_eq_true_eq, List.all_eq_true] at this
    intro p hp
    exact Option.isSome_iff_exists.mp (this.2 p hp)

/-- Every id selected by a step names a ready job. -/
theorem chosen_ready {pol : Alg.Policy} {jobs : List Alg.Job} {st : Alg.SimSt} {c : Nat}
    (h : c ∈ Alg.chosenOf pol jobs st) :
    ∃ j ∈ jobs, j.id = c ∧ j.arrival ≤ st.time ∧ 0 < st.rem c ∧
      ∀ p ∈ j.dependencies, ∃ f, st.fin p = some f := by
  rcases chooseIds_sub pol st _ c h with ⟨j, hj, hjc⟩
  have hr := mem_readyJobs (mem_sortLe _ j _ hj)
  exact ⟨j, hr.1, hjc, hr.2.1, hjc ▸ hr.2.2.1, hr.2.2.2⟩

/-- A slice has positive length when every selected job has work
left. -/
theorem deltaOf_pos (jobs : List Alg.Job) (st : Alg.SimSt) (chosen : List Nat)
    (hpos : ∀ c ∈ chosen, 0 < st.rem c) : 1 ≤ Alg.deltaOf jobs st chosen := by
  unfold Alg.deltaOf
  have hmin : 1 ≤ (Alg.minList (chosen.map st.rem)).getD 1 := by
    cases hm : Alg.minList (chosen.map st.rem) with
    | none => simp
    | some r =>
      have hr := minList_mem hm
      rcases List.mem_map.mp hr with ⟨c, hc, hrc⟩
      have := hpos c hc
      simp only [Option.getD_some]
      omega
  cases hna : Alg.nextArrival jobs st.time with
  | none => exact hmin
  | some t2 =>
    have := nextArrival_gt jobs st.time t2 hna
    simp only []
    omega

/-- The state invariant is preserved by running one slice of selected
ready jobs. -/
theorem runState_inv {jobs : List Alg.Job} {st : Alg.SimSt} {chosen : List Nat}
    (hnd : (jobs.map Alg.Job.id).Nodup) (hinv : Alg.Inv jobs st)
    (hch : ∀ c ∈ chosen, ∃ j ∈ jobs, j.id = c ∧ j.arrival ≤ st.time ∧ 0 < st.rem c ∧
      ∀ p ∈ j.dependencies, ∃ f, st.fin p = some f) :
    Alg.Inv jobs (Alg.runState jobs st chosen) := by
  obtain ⟨I1, I2, I4, I5, I6⟩ := hinv
  have hpos : ∀ c ∈ chosen, 0 < st.rem c := by
    intro c hc
    rcases hch c hc with ⟨j, _, _, _, h, _⟩
    exact h
  have hd : 1 ≤ Alg.deltaOf jobs st chosen := deltaOf_pos jobs st chosen hpos
  refine ⟨?_, ?_, ?_, ?_, ?_⟩
  · intro x f hf
    simp only [Alg.runState] at hf ⊢
    by_cases hc : x ∈ chosen ∧ st.rem x - Alg.deltaOf jobs st chosen = 0
    · rw [if_pos hc] at hf
      have := Option.some.inj hf
      omega
    · rw [if_neg hc] at hf
      have := I1 x f hf
      omega
  · intro j hj s hs p hp
    simp only [Alg.runState] at hs ⊢
    by_cases hc : j.id ∈ chosen ∧ st.strt j.id = none
    · rw [if_pos hc] at hs
      have hs2 : s = st.time := (Option.some.inj hs).symm
      subst hs2
      rcases hch j.id hc.1 with ⟨j2, hj2, hid, _, _, hpred⟩
      have hjj : j2 = j := List.inj_on_of_nodup_map hnd hj2 hj hid
      subst hjj
      rcases hpred p hp with ⟨f, hf⟩
      have hnotc : ¬(p ∈ chosen ∧ st.rem p - Alg.deltaOf jobs st chosen = 0) := by
        intro hpc
        have h0 := I4 p (hpos p hpc.1)
        rw [h0] at hf
        cases hf
      exact ⟨f, by rw [if_neg hnotc]; exact hf, I1 p f hf⟩
    · rw [if_neg hc] at hs
      rcases I2 j hj s hs p hp with ⟨f, hf, hfs⟩
      have hnotc : ¬(p ∈ chosen ∧ st.rem p - Alg.deltaOf jobs st chosen = 0) := by
        intro hpc
        have h0 := I4 p (hpos p hpc.1)
        rw [h0] at hf
        cases hf
      exact ⟨f, by rw [if_neg hnotc]; exact hf, hfs⟩
  · intro x hx
    simp only [Alg.runState] at hx ⊢
    by_cases hcx : x ∈ chosen
    · rw [if_pos hcx] at hx
      have hnotc : ¬(x ∈ chosen ∧ st.rem x - Alg.deltaOf jobs st chosen = 0) := by
        intro h
        omega
      rw [if_neg hnotc]
      exact I4 x (by omega)
    · rw [if_neg hcx] at hx
      have hnotc : ¬(x ∈ chosen ∧ st.rem x - Alg.deltaOf jobs st chosen = 0) := by
        intro h
        exact hcx h.1
      rw [if_neg hnotc]
      exact I4 x hx
  · intro iv hiv
    simp only [Alg.runState] at hiv
    rcases List.mem_append.mp hiv with h1 | h1
    · have := I5 iv h1
      refine ⟨this.1, ?_⟩
      show iv.stop ≤ st.time + Alg.deltaOf jobs st chosen
      omega
    · rcases List.mem_map.mp h1 with ⟨p, hp, hiv2⟩
      rw [← hiv2]
      constructor
      · show st.time < st.time + Alg.deltaOf jobs st chosen
        omega
      · show st.time + Alg.deltaOf jobs st chosen ≤
          (Alg.runState jobs st chosen).time
        show st.time + Alg.deltaOf jobs st chosen ≤
          st.time + Alg.deltaOf jobs st chosen
        exact Nat.le_refl _
  · simp only [Alg.runState]
    refine List.pairwise_append.mpr ⟨I6, ?_, ?_⟩
    · rw [List.pairwise_map]
      have hpe : List.Pairwise (fun x y : Nat × Nat => x.1 < y.1) chosen.enum :=
        pairwise_enumFrom chosen 0
      refine hpe.imp ?_
      intro a b hab heq
      have heq2 : a.1 = b.1 := heq
      omega
    · intro a ha b hb heq
      rcases List.mem_map.mp hb with ⟨p, hp, hb2⟩
      rw [← hb2]
      show a.stop ≤ st.time
      exact (I5 a ha).2

/-- The state invariant is preserved by every simulation event. -/
theorem simStep_inv {pol : Alg.Policy} {jobs : List Alg.Job} {st st2 : Alg.SimSt}
    (hnd : (jobs.map Alg.Job.id).Nodup) (hinv : Alg.Inv jobs st)
    (hstep : Alg.simStep pol jobs st = some st2) : Alg.Inv jobs st2 := by
  unfold Alg.simStep at hstep
  split at hstep
  · cases hna : Alg.nextArrival jobs st.time with
    | none =>
      rw [hna] at hstep
      cases hstep
    | some t2 =>
      rw [hna] at hstep
      have hlt := nextArrival_gt jobs st.time t2 hna
      obtain ⟨I1, I2, I4, I5, I6⟩ := hinv
      cases Option.some.inj hstep
      refine ⟨?_, ?_, ?_, ?_, ?_⟩
      · intro x f hf
        have := I1 x f hf
        show f ≤ t2
        omega
      · intro j hj s hs p hp
        exact I2 j hj s hs p hp
      · intro x hx
        exact I4 x hx
      · intro iv hiv
        have := I5 iv hiv
        refine ⟨this.1, ?_⟩
        show iv.stop ≤ t2
        omega
      · exact I6
  · cases Option.some.inj hstep
    exact runState_inv hnd hinv (fun c hc => chosen_ready hc)

/-- The state invariant is preserved by any number of simulation
events. -/
theorem simRun_inv {pol : Alg.Policy} {jobs : List Alg.Job}
    (hnd : (jobs.map Alg.Job.id).Nodup) :
    ∀ (fuel : Nat) (st : Alg.SimSt), Alg.Inv jobs st →
      Alg.Inv jobs (Alg.simRun pol jobs fuel st) := by
  intro fuel
  induction fuel with
  | zero => intro st h; exact h
  | succ n ih =>
    intro st h
    unfold Alg.simRun
    cases hstep : Alg.simStep pol jobs st with
    | none => simp only [hstep]; exact h
    | some st2 => simp only [hstep]; exact ih st2 (simStep_inv hnd h hstep)

/-- The initial state satisfies the invariant. -/
theorem initSt_inv (jobs : List Alg.Job) : Alg.Inv jobs (Alg.initSt jobs) := by
  refine ⟨?_, ?_, ?_, ?_, ?_⟩
  · intro x f hf
    cases hf
  · intro j hj s hs
    cases hs
  · intro x hx
    rfl
  · intro iv hiv
    cases hiv
  · exact List.Pairwise.nil

/-- Every schedule produced by the generic simulation respects the
precedence and per-node ordering invariants. -/
theorem simulate_invariants (pol : Alg.Policy) (jobs : List Alg.Job)
    (hnd : (jobs.map Alg.Job.id).Nodup) :
    Alg.PrecedenceOK jobs (Alg.simulate pol jobs) ∧
      Alg.NodesOrdered (Alg.simulate pol jobs) := by
  have hrun : Alg.Inv jobs (Alg.simRun pol jobs (Alg.simFuel jobs) (Alg.initSt jobs)) :=
    simRun_inv hnd (Alg.simFuel jobs) (Alg.initSt jobs) (initSt_inv jobs)
  obtain ⟨I1, I2, I4, I5, I6⟩ := hrun
  constructor
  · intro j hj s hs p hp
    exact I2 j hj s hs p hp
  · intro l hl
    rcases List.mem_map.mp hl with ⟨n, _, hln⟩
    constructor
    · intro iv hiv
      rw [← hln] at hiv
      rcases List.mem_map.mp hiv with ⟨iv0, hiv0, hiv2⟩
      rw [← hiv2]
      exact (I5 iv0 (List.mem_of_mem_filter hiv0)).1
    · rw [← hln, List.pairwise_map]
      have hfil := I6.filter (fun iv => iv.node == n)
      refine hfil.imp_of_mem ?_
      intro a b ha hb hab
      have han : a.node = n := by
        have := (List.mem_filter.mp ha).2
        simpa using this
      have hbn : b.node = n := by
        have := (List.mem_filter.mp hb).2
        simpa using this
      exact hab (han.trans hbn.symm)

/-- C4: for every job set with unique ids and every node count, each
of the five schedulers (LDF and EDF single-node, EDF, LDF and LL
multi-node) produces a Result in which every job starts no earlier
than each of its predecessors' finish times, and on every node the
intervals are pairwise non-overlapping and sorted by time. -/
theorem c4_scheduler_invariants (jobs : List Alg.Job) (m : Nat)
    (hnd : (jobs.map Alg.Job.id).Nodup) :
    (Alg.PrecedenceOK jobs (Alg.ldf_single_node jobs) ∧
      Alg.NodesOrdered (Alg.ldf_single_node jobs)) ∧
    (Alg.PrecedenceOK jobs (Alg.edf_single_node jobs) ∧
      Alg.NodesOrdered (Alg.edf_single_node jobs)) ∧
    (Alg.PrecedenceOK jobs (Alg.edf_multinode_no_delay jobs m) ∧
      Alg.NodesOrdered (Alg.edf_multinode_no_delay jobs m)) ∧
    (Alg.PrecedenceOK jobs (Alg.ldf_multinode_no_delay jobs m) ∧
      Alg.NodesOrdered (Alg.ldf_multinode_no_delay jobs m)) ∧
    (Alg.PrecedenceOK jobs (Alg.ll_multinode_no_delay jobs m) ∧
      Alg.NodesOrdered (Alg.ll_multinode_no_delay jobs m)) :=
  ⟨simulate_invariants (Alg.ldfPolicy jobs 1) jobs hnd,
   simulate_invariants (Alg.edfPolicy 1) jobs hnd,
   simulate_invariants (Alg.edfPolicy m) jobs hnd,
   simulate_invariants (Alg.ldfPolicy jobs m) jobs hnd,
   simulate_invariants (Alg.llPolicy m) jobs hnd⟩

/-- C4 witness: the invariants instantiated on a concrete three-job
DAG with two nodes. -/
theorem c4_scheduler_invariants_witness :
    (Alg.PrecedenceOK [⟨0, 0, 2, 5, []⟩, ⟨1, 0, 1, 2, []⟩, ⟨2, 0, 2, 9, [0, 1]⟩]
        (Alg.ldf_single_node [⟨0, 0, 2, 5, []⟩, ⟨1, 0, 1, 2, []⟩, ⟨2, 0, 2, 9, [0, 1]⟩]) ∧
      Alg.NodesOrdered
        (Alg.ldf_single_node [⟨0, 0, 2, 5, []⟩, ⟨1, 0, 1, 2, []⟩, ⟨2, 0, 2, 9, [0, 1]⟩])) ∧
    (Alg.PrecedenceOK [⟨0, 0, 2, 5, []⟩, ⟨1, 0, 1, 2, []⟩, ⟨2, 0, 2, 9, [0, 1]⟩]
        (Alg.edf_single_node [⟨0, 0, 2, 5, []⟩, ⟨1, 0, 1, 2, []⟩, ⟨2, 0, 2, 9, [0, 1]⟩]) ∧
      Alg.NodesOrdered
        (Alg.edf_single_node [⟨0, 0, 2, 5, []⟩, ⟨1, 0, 1, 2, []⟩, ⟨2, 0, 2, 9, [0, 1]⟩])) ∧
    (Alg.PrecedenceOK [⟨0, 0, 2, 5, []⟩, ⟨1, 0, 1, 2, []⟩, ⟨2, 0, 2, 9, [0, 1]⟩]
        (Alg.edf_multinode_no_delay [⟨0, 0, 2, 5, []⟩, ⟨1, 0, 1, 2, []⟩, ⟨2, 0, 2, 9, [0, 1]⟩] 2) ∧
      Alg.NodesOrdered
        (Alg.edf_multinode_no_delay [⟨0, 0, 2, 5, []⟩, ⟨1, 0, 1, 2, []⟩, ⟨2, 0, 2, 9, [0, 1]⟩] 2)) ∧
    (Alg.PrecedenceOK [⟨0, 0, 2, 5, []⟩, ⟨1, 0, 1, 2, []⟩, ⟨2, 0, 2, 9, [0, 1]⟩]
        (Alg.ldf_multinode_no_delay [⟨0, 0, 2, 5, []⟩, ⟨1, 0, 1, 2, []⟩, ⟨2, 0, 2, 9, [0, 1]⟩] 2) ∧
      Alg.NodesOrdered
        (Alg.ldf_multinode_no_delay [⟨0, 0, 2, 5, []⟩, ⟨1, 0, 1, 2, []⟩, ⟨2, 0, 2, 9, [0, 1]⟩] 2)) ∧
    (Alg.PrecedenceOK [⟨0, 0, 2, 5, []⟩, ⟨1, 0, 1, 2, []⟩, ⟨2, 0, 2, 9, [0, 1]⟩]
        (Alg.ll_multinode_no_delay [⟨0, 0, 2, 5, []⟩, ⟨1, 0, 1, 2, []⟩, ⟨2, 0, 2, 9, [0, 1]⟩] 2) ∧
      Alg.NodesOrdered
        (Alg.ll_multinode_no_delay [⟨0, 0, 2, 5, []⟩, ⟨1, 0, 1, 2, []⟩, ⟨2, 0, 2, 9, [0, 1]⟩] 2)) :=
  c4_scheduler_invariants [⟨0, 0, 2, 5, []⟩, ⟨1, 0, 1, 2, []⟩, ⟨2, 0, 2, 9, [0, 1]⟩] 2
    (by decide)
